import Mathlib

/-!
Verification of the random-chess-backend core against its specification.

The development shallowly embeds the Go sources:
- the domain entity and rule-engine wrapper (`internal/domain/game`,
  `Game.ApplyMove`, `isValidUCISyntax`, `outcomeToStatus`);
- the in-memory store (`internal/adapters/memory`, `ClaimNextGame`,
  `PersistMove`, `CreateWaitingBatch`);
- the transactional store (`internal/adapters/postgres`), whose SQL
  statements are modelled as operations on relational state with
  transaction-rollback semantics;
- the use-case orchestrators (`usecase.MoveSubmitter.SubmitMove`,
  `usecase.NextGame.GetNext`).

The chess library (`notnil/chess`, external to the repository) is kept
abstract as a `ChessEngine` record of pure functions on FEN strings;
every theorem quantifies over the engine, and witnesses instantiate a
concrete trivial engine.  Go `uuid.UUID` values are modelled as `Nat`,
`time.Time` as `Int`, Go `int` as `Int`, and Go maps as lists looked up
by key (map iteration order is unspecified in Go, so list order stands
for an arbitrary iteration order).
-/

deriving instance DecidableEq for Except

namespace RandomChess

/-- Game status enum (`game.Status`). -/
inductive Status where
  | waiting
  | ongoing
  | checkmate
  | stalemate
  | draw
  | resigned
deriving DecidableEq, Repr

/-- Game result enum (`game.Result`): white wins, black wins, draw. -/
inductive GResult where
  | white
  | black
  | draw
deriving DecidableEq, Repr

/-- Sentinel errors of the domain layer, the ports package and the
use-case layer, unified into one type as Go unifies them in `error`. -/
inductive Err where
  | rateLimited
  | notFound
  | versionConflict
  | notAssigned
  | alreadyMoved
  | noGamesAvailable
  | invalidUCI
  | illegalMove
  | gameNotOngoing
deriving DecidableEq, Repr

/-- The domain entity `game.Game` (the unexported `chessGame` cache is
not modelled: `ApplyMove` rebuilds the engine state from `FEN`). -/
structure Game where
  id : Nat
  status : Status
  result : Option GResult
  fen : String
  sideToMove : String
  plyCount : Int
  lastMoveUCI : Option String
  lastMoveAt : Option Int
  stateVersion : Int
  createdAt : Int
  updatedAt : Int
deriving DecidableEq, Repr

/-- `game.MoveRecord`. -/
structure MoveRecord where
  id : Nat
  uci : String
  fenBefore : String
  fenAfter : String
  createdAt : Int
deriving DecidableEq, Repr

/-- `game.MoveHistoryItem`. -/
structure MoveHistoryItem where
  ply : Int
  uci : String
  fromSq : String
  toSq : String
  promotion : Option String
  clientID : Nat
  fenBefore : String
  fenAfter : String
  createdAt : Int
deriving DecidableEq, Repr

/-- `chess.Outcome` of the external chess library, restricted to the
values the code inspects. -/
inductive Outcome where
  | whiteWon
  | blackWon
  | drawn
  | noOutcome
deriving DecidableEq, Repr

/-- `chess.Method`, restricted to the values `outcomeToStatus`
distinguishes. -/
inductive Method where
  | checkmate
  | stalemate
  | otherMethod
deriving DecidableEq, Repr

/-- Abstract interface to the external chess library: pure functions on
FEN position strings.  `fenOk` models whether `chess.FEN` parses,
`moveStr` models `MoveStr` (resulting FEN, or `none` when the move is
illegal in the position), `whiteToMove` models `pos.Turn() == White`
on the resulting position, and `outcome`/`method` model
`Game.Outcome()`/`Game.Method()` on the resulting position. -/
structure ChessEngine where
  fenOk : String → Bool
  moveStr : String → String → Option String
  whiteToMove : String → Bool
  outcome : String → Outcome
  method : String → Method

/-- The standard initial position (`initialFEN` in the postgres adapter,
and the position `chess.NewGame()` starts from). -/
def initialFEN : String :=
  "rnbqkbnr/pppppppp/8/8/8/8/PPPPPPPP/RNBQKBNR w KQkq - 0 1"

/-- `colorName`: `"white"` for White, `"black"` otherwise. -/
def colorName (white : Bool) : String :=
  if white then "white" else "black"

/-- `outcomeToStatus`: maps the library outcome/method pair to the
contract status and result. -/
def outcomeToStatus (o : Outcome) (m : Method) : Status × Option GResult :=
  match o with
  | .whiteWon =>
      if m = .checkmate then (.checkmate, some .white) else (.resigned, some .white)
  | .blackWon =>
      if m = .checkmate then (.checkmate, some .black) else (.resigned, some .black)
  | .drawn =>
      if m = .stalemate then (.stalemate, some .draw) else (.draw, some .draw)
  | .noOutcome => (.ongoing, none)

/-- File check from `isValidUCISyntax`: Go rejects when
`c < 'a' || c > 'h'`. -/
def fileOk (c : Char) : Bool :=
  !(decide (c < 'a') || decide ('h' < c))

/-- Rank check from `isValidUCISyntax`: Go rejects when
`c < '1' || c > '8'`. -/
def rankOk (c : Char) : Bool :=
  !(decide (c < '1') || decide ('8' < c))

/-- Promotion-piece check from `isValidUCISyntax`: the optional fifth
character must be one of `q`, `r`, `b`, `n`. -/
def promoOk (c : Char) : Bool :=
  c == 'q' || c == 'r' || c == 'b' || c == 'n'

/-- `isValidUCISyntax`: length 4 or 5, files at positions 0 and 2, ranks
at positions 1 and 3, optional promotion piece at position 4. -/
def isValidUCISyntax (s : String) : Bool :=
  match s.data with
  | [c0, c1, c2, c3] => fileOk c0 && rankOk c1 && fileOk c2 && rankOk c3
  | [c0, c1, c2, c3, c4] =>
      fileOk c0 && rankOk c1 && fileOk c2 && rankOk c3 && promoOk c4
  | _ => false

/-- Well-formed coordinate notation as the spec words it: length 4 or 5;
characters 1 and 3 in `a`–`h`; characters 2 and 4 in `1`–`8`; an
optional 5th character in `{q, r, b, n}`. -/
def uciWellFormedSpec (s : String) : Bool :=
  let cs := s.data
  (cs.length == 4 || cs.length == 5) &&
  (decide ('a' ≤ cs.getD 0 ' ') && decide (cs.getD 0 ' ' ≤ 'h')) &&
  (decide ('1' ≤ cs.getD 1 ' ') && decide (cs.getD 1 ' ' ≤ '8')) &&
  (decide ('a' ≤ cs.getD 2 ' ') && decide (cs.getD 2 ' ' ≤ 'h')) &&
  (decide ('1' ≤ cs.getD 3 ' ') && decide (cs.getD 3 ' ' ≤ '8')) &&
  (cs.length == 4 || promoOk (cs.getD 4 ' '))

/-- The successor entity `Game.ApplyMove` builds on success: updated
position and side to move, `PlyCount+1`, `StateVersion+1`, status and
result from `outcomeToStatus` on the resulting position, `CreatedAt`
kept, `UpdatedAt`/`LastMove` stamped with `now`. -/
def successorGame (E : ChessEngine) (g : Game) (uci : String) (now : Int)
    (fenAfter : String) : Game :=
  { id := g.id
    status := (outcomeToStatus (E.outcome fenAfter) (E.method fenAfter)).1
    result := (outcomeToStatus (E.outcome fenAfter) (E.method fenAfter)).2
    fen := fenAfter
    sideToMove := colorName (E.whiteToMove fenAfter)
    plyCount := g.plyCount + 1
    lastMoveUCI := some uci
    lastMoveAt := some now
    stateVersion := g.stateVersion + 1
    createdAt := g.createdAt
    updatedAt := now }

/-- The `MoveRecord` that `Game.ApplyMove` builds on success. -/
def mkRecord (recId : Nat) (uci fenBefore fenAfter : String) (now : Int) :
    MoveRecord :=
  { id := recId
    uci := uci
    fenBefore := fenBefore
    fenAfter := fenAfter
    createdAt := now }

/-- `Game.ApplyMove`: validates the UCI move against the current
position and returns a new `Game` plus a `MoveRecord`.  The fresh
`uuid.New()` of the record is passed in as `recId`; `now` is the clock
value.  Purity of the Go method (the receiver is never mutated) is
intrinsic to this functional embedding. -/
def Game.applyMove (E : ChessEngine) (g : Game) (uci : String) (now : Int)
    (recId : Nat) : Except Err (Game × MoveRecord) :=
  if g.status ≠ .ongoing ∧ g.status ≠ .waiting then
    .error .gameNotOngoing
  else if ¬ isValidUCISyntax uci then
    .error .invalidUCI
  else if ¬ E.fenOk g.fen then
    .error .illegalMove
  else
    match E.moveStr g.fen uci with
    | none => .error .illegalMove
    | some fenAfter =>
        .ok (successorGame E g uci now fenAfter,
             mkRecord recId uci g.fen fenAfter now)

/-! ### In-memory store (`internal/adapters/memory`) -/

/-- The in-memory `memory.Store`.  `games` stands for the Go map
`map[uuid.UUID]*game.Game` (list order = an arbitrary map iteration
order), `assigned`/`moved` for the nested client-id sets as flat
(gameID, clientID) pair lists, `history` for the per-game ordered move
history map.  `nextId` is the supply of fresh UUIDs. -/
structure MemStore where
  games : List Game
  assigned : List (Nat × Nat)
  moved : List (Nat × Nat)
  history : List (Nat × List MoveHistoryItem)
  nextId : Nat
deriving DecidableEq, Repr

/-- Lookup `s.games[id]` of the Go game map. -/
def findGame : List Game → Nat → Option Game
  | [], _ => none
  | g :: rest, id => if g.id == id then some g else findGame rest id

/-- Assignment `s.games[id] = g`: replace the entry keyed by `id`. -/
def putGame : List Game → Nat → Game → List Game
  | [], _, _ => []
  | x :: xs, id, g => (if x.id == id then g else x) :: putGame xs id g

/-- Lookup `s.history[id]` with the Go nil-to-empty normalisation. -/
def histOf : List (Nat × List MoveHistoryItem) → Nat → List MoveHistoryItem
  | [], _ => []
  | p :: rest, id => if p.1 == id then p.2 else histOf rest id

/-- Assignment `s.history[id] = v` on the history map (replace the
entry keyed by `id`, or insert it when absent). -/
def putHist : List (Nat × List MoveHistoryItem) → Nat →
    List MoveHistoryItem → List (Nat × List MoveHistoryItem)
  | [], id, v => [(id, v)]
  | p :: rest, id, v =>
      if p.1 == id then (id, v) :: putHist rest id v
      else p :: putHist rest id v

/-- Eligibility filter of the memory `ClaimNextGame` loop body: status
in {waiting, ongoing} and no assignment of this game to `clientID`. -/
def memEligible (assigned : List (Nat × Nat)) (clientID : Nat) (g : Game) :
    Bool :=
  (g.status == .waiting || g.status == .ongoing) &&
    !(assigned.contains (g.id, clientID))

/-- Memory `Store.ClaimNextGame`: scan the game map for the first
eligible game, record the assignment, transition waiting → ongoing, and
return the game with its history.  On failure the store is returned
unchanged. -/
def MemStore.claimNextGame (s : MemStore) (clientID : Nat) :
    Except Err (Game × List MoveHistoryItem) × MemStore :=
  match s.games.find? (memEligible s.assigned clientID) with
  | none => (.error .noGamesAvailable, s)
  | some chosen =>
      let s1 : MemStore := { s with assigned := (chosen.id, clientID) :: s.assigned }
      if chosen.status = .waiting then
        let updated : Game := { chosen with status := .ongoing }
        let s2 : MemStore := { s1 with games := putGame s1.games chosen.id updated }
        (.ok (updated, histOf s2.history updated.id), s2)
      else
        (.ok (chosen, histOf s1.history chosen.id), s1)

/-- The move-history item the memory `PersistMove` builds from a
`MoveRecord` (slicing the UCI string into squares and promotion). -/
def mkItem (clientID : Nat) (rec : MoveRecord) (ply : Int) :
    MoveHistoryItem :=
  { ply := ply
    uci := rec.uci
    fromSq := rec.uci.take 2
    toSq := (rec.uci.drop 2).take 2
    promotion := if rec.uci.length == 5 then some (rec.uci.drop 4) else none
    clientID := clientID
    fenBefore := rec.fenBefore
    fenAfter := rec.fenAfter
    createdAt := rec.createdAt }

/-- Memory `Store.PersistMove`: check assignment, check `has_moved`,
CAS on `StateVersion`, then persist the game, the moved flag and the
history item together.  Every early return leaves the store untouched. -/
def MemStore.persistMove (s : MemStore) (gameID clientID : Nat)
    (newGame : Game) (rec : MoveRecord) (ply : Int) :
    Except Err (List MoveHistoryItem) × MemStore :=
  if ¬ s.assigned.contains (gameID, clientID) then
    (.error .notAssigned, s)
  else if s.moved.contains (gameID, clientID) then
    (.error .alreadyMoved, s)
  else
    match findGame s.games gameID with
    | none => (.error .notFound, s)
    | some cur =>
        if cur.stateVersion ≠ newGame.stateVersion - 1 then
          (.error .versionConflict, s)
        else
          let item := mkItem clientID rec ply
          let newHist := histOf s.history gameID ++ [item]
          (.ok newHist,
           { s with
             games := putGame s.games gameID newGame
             moved := (gameID, clientID) :: s.moved
             history := putHist s.history gameID newHist })

/-- A fresh game as `game.NewGame` builds it (standard initial
position, version 0, no moves). -/
def mkInitialGame (id : Nat) (now : Int) : Game :=
  { id := id
    status := .ongoing
    result := none
    fen := initialFEN
    sideToMove := "white"
    plyCount := 0
    lastMoveUCI := none
    lastMoveAt := none
    stateVersion := 0
    createdAt := now
    updatedAt := now }

/-- Memory `Store.CreateWaitingBatch`: insert `count` fresh games, each
built by `NewGame` with the status overridden to waiting. -/
def MemStore.createWaitingBatch (s : MemStore) (count : Nat) (now : Int) :
    MemStore :=
  { s with
    games := s.games ++
      (List.range count).map
        (fun i => { mkInitialGame (s.nextId + i) now with status := .waiting })
    nextId := s.nextId + count }

/-! ### Use cases (`internal/usecase`) -/

/-- `usecase.SubmitMoveResult`. -/
structure SubmitResult where
  move : MoveRecord
  game : Game
  history : List MoveHistoryItem
  shouldFetchNext : Bool
deriving DecidableEq, Repr

/-- `usecase.MoveSubmitter.SubmitMove` over the in-memory store: rate
limit, load the game, advisory version check, `Game.ApplyMove`, then
the atomic `PersistMove`. -/
def submitMove (E : ChessEngine) (s : MemStore) (gameID clientID : Nat)
    (uci : String) (expectedVersion : Int) (allow : Bool) (now : Int)
    (recId : Nat) : Except Err SubmitResult × MemStore :=
  if ¬ allow then (.error .rateLimited, s)
  else
    match findGame s.games gameID with
    | none => (.error .notFound, s)
    | some g =>
        if g.stateVersion ≠ expectedVersion then
          (.error .versionConflict, s)
        else
          match g.applyMove E uci now recId with
          | .error e => (.error e, s)
          | .ok (newGame, rec) =>
              match s.persistMove gameID clientID newGame rec
                      (newGame.plyCount - 1) with
              | (.error e, s1) => (.error e, s1)
              | (.ok history, s1) =>
                  (.ok { move := rec
                         game := newGame
                         history := history
                         shouldFetchNext := decide (newGame.status ≠ .ongoing) },
                   s1)

/-- The slice of `ports.GameStore` that `usecase.NextGame` uses; the Go
method is written against the interface, so the embedding is
parameterised the same way. -/
structure StoreOps (σ : Type) where
  claimNextGame : σ → Nat → Except Err (Game × List MoveHistoryItem) × σ
  createWaitingBatch : σ → Nat → Int → σ

/-- `usecase.NextGame.GetNext`: rate limit, claim; on
`NoGamesAvailable` create one batch of `batchSize` waiting games and
retry the claim exactly once; propagate any other error unchanged. -/
def getNext {σ : Type} (ops : StoreOps σ) (s : σ) (clientID batchSize : Nat)
    (allow : Bool) (now : Int) :
    Except Err (Game × List MoveHistoryItem) × σ :=
  if ¬ allow then (.error .rateLimited, s)
  else
    match ops.claimNextGame s clientID with
    | (.ok r, s1) => (.ok r, s1)
    | (.error e, s1) =>
        if e ≠ .noGamesAvailable then (.error e, s1)
        else
          let s2 := ops.createWaitingBatch s1 batchSize now
          ops.claimNextGame s2 clientID

/-- The memory store instantiated as the `StoreOps` capability. -/
def memOps : StoreOps MemStore :=
  { claimNextGame := MemStore.claimNextGame
    createWaitingBatch := MemStore.createWaitingBatch }

/-! ### Transactional store (`internal/adapters/postgres`)

The SQL statements of the adapter are modelled as operations on
relational state; every error path in a transaction returns the
original store, modelling `tx.Rollback`. -/

/-- A row of the `game_players` table. -/
structure PlayerRow where
  gameId : Nat
  clientId : Nat
  hasMoved : Bool
  createdAt : Int
deriving DecidableEq, Repr

/-- A row of the `moves` table. -/
structure MoveRow where
  id : Nat
  gameId : Nat
  ply : Int
  uci : String
  fromSq : String
  toSq : String
  promotion : Option String
  clientId : Nat
  fenBefore : String
  fenAfter : String
  createdAt : Int
deriving DecidableEq, Repr

/-- The relational state behind the postgres `Store`: the `games`,
`game_players` and `moves` tables.  `nextId` supplies fresh UUIDs. -/
structure PgStore where
  games : List Game
  players : List PlayerRow
  moves : List MoveRow
  nextId : Nat
deriving DecidableEq, Repr

/-- The WHERE clause of `queryClaimNextGame`: status in
{waiting, ongoing} and no `game_players` row for (game, client). -/
def pgEligible (players : List PlayerRow) (clientID : Nat) (g : Game) :
    Bool :=
  (g.status == .waiting || g.status == .ongoing) &&
    !(players.any (fun p => p.gameId == g.id && p.clientId == clientID))

/-- `ORDER BY created_at ASC LIMIT 1`: the first row of minimal
`created_at` (ties are unspecified in SQL; the model keeps the first). -/
def selectOldest (l : List Game) : Option Game :=
  l.foldl
    (fun acc g =>
      match acc with
      | none => some g
      | some b => if g.createdAt < b.createdAt then some g else acc)
    none

/-- The SET list of `queryUpdateGame`/`querySaveIfVersion`: every
column except `id` and `created_at`. -/
def applyGameUpdate (row ng : Game) : Game :=
  { row with
    status := ng.status
    result := ng.result
    fen := ng.fen
    sideToMove := ng.sideToMove
    plyCount := ng.plyCount
    lastMoveUCI := ng.lastMoveUCI
    lastMoveAt := ng.lastMoveAt
    stateVersion := ng.stateVersion
    updatedAt := ng.updatedAt }

/-- Scan of one `moves` row into a `game.MoveHistoryItem`. -/
def rowToItem (r : MoveRow) : MoveHistoryItem :=
  { ply := r.ply
    uci := r.uci
    fromSq := r.fromSq
    toSq := r.toSq
    promotion := r.promotion
    clientID := r.clientId
    fenBefore := r.fenBefore
    fenAfter := r.fenAfter
    createdAt := r.createdAt }

/-- Insertion step of the `ORDER BY ply ASC` sort. -/
def insertByPly (m : MoveRow) : List MoveRow → List MoveRow
  | [] => [m]
  | x :: xs => if m.ply ≤ x.ply then m :: x :: xs else x :: insertByPly m xs

/-- `ORDER BY ply ASC` as an insertion sort. -/
def sortByPly (l : List MoveRow) : List MoveRow :=
  l.foldr insertByPly []

/-- `fetchMoveHistory`: `SELECT ... FROM moves WHERE game_id = $1 ORDER
BY ply ASC`. -/
def pgHistory (moves : List MoveRow) (gameID : Nat) :
    List MoveHistoryItem :=
  (sortByPly (moves.filter (fun r => r.gameId == gameID))).map rowToItem

/-- The committed state of a successful postgres `ClaimNextGame`
transaction: the inserted `game_players` row plus the waiting → ongoing
activation of the selected game. -/
def pgClaimCommit (s : PgStore) (gid clientID : Nat) (now : Int) : PgStore :=
  { s with
    players := s.players ++
      [{ gameId := gid, clientId := clientID, hasMoved := false
         createdAt := now }]
    games :=
      s.games.map (fun x =>
        if x.id == gid && x.status == Status.waiting then
          { x with status := .ongoing, updatedAt := now }
        else x) }

/-- Postgres `Store.ClaimNextGame`: one transaction that selects the
oldest eligible game, inserts the `game_players` row (bailing out with
`NoGamesAvailable` when `ON CONFLICT DO NOTHING` inserts no row),
activates the game, and returns it with its history.  The `FOR UPDATE
SKIP LOCKED` row locking has no sequential content. -/
def PgStore.claimNextGame (s : PgStore) (clientID : Nat) (now : Int) :
    Except Err (Game × List MoveHistoryItem) × PgStore :=
  match selectOldest (s.games.filter (pgEligible s.players clientID)) with
  | none => (.error .noGamesAvailable, s)
  | some g =>
      if s.players.any (fun p => p.gameId == g.id && p.clientId == clientID) then
        (.error .noGamesAvailable, s)
      else
        (.ok ((if g.status = .waiting then { g with status := .ongoing } else g),
              pgHistory (pgClaimCommit s g.id clientID now).moves g.id),
         pgClaimCommit s g.id clientID now)

/-- The `moves` row built by the postgres `PersistMove` from the
`MoveRecord` (slicing the UCI string into squares and promotion). -/
def mkMoveRow (gameID clientID : Nat) (rec : MoveRecord) (ply : Int) :
    MoveRow :=
  { id := rec.id
    gameId := gameID
    ply := ply
    uci := rec.uci
    fromSq := rec.uci.take 2
    toSq := (rec.uci.drop 2).take 2
    promotion := if rec.uci.length == 5 then some (rec.uci.drop 4) else none
    clientId := clientID
    fenBefore := rec.fenBefore
    fenAfter := rec.fenAfter
    createdAt := rec.createdAt }

/-- The committed state of a successful postgres `PersistMove`
transaction: the inserted `moves` row, the CAS-updated game row and the
`has_moved` flag, all together. -/
def pgMoveCommit (s : PgStore) (gameID clientID : Nat) (newGame : Game)
    (rec : MoveRecord) (ply : Int) : PgStore :=
  { s with
    moves := s.moves ++ [mkMoveRow gameID clientID rec ply]
    games :=
      s.games.map (fun g =>
        if g.id == gameID && g.stateVersion == newGame.stateVersion - 1 then
          applyGameUpdate g newGame
        else g)
    players :=
      s.players.map (fun q =>
        if q.gameId == gameID && q.clientId == clientID then
          { q with hasMoved := true }
        else q) }

/-- Postgres `Store.PersistMove`: one transaction that locks and checks
the `game_players` row, inserts the `moves` row, CAS-updates the game
row (`WHERE id = $10 AND state_version = $11`, zero rows affected gives
`VersionConflict`), marks the player moved and returns the history.
Any error rolls the transaction back to the original state. -/
def PgStore.persistMove (s : PgStore) (gameID clientID : Nat)
    (newGame : Game) (rec : MoveRecord) (ply : Int) :
    Except Err (List MoveHistoryItem) × PgStore :=
  match s.players.find? (fun p => p.gameId == gameID && p.clientId == clientID) with
  | none => (.error .notAssigned, s)
  | some p =>
      if p.hasMoved then (.error .alreadyMoved, s)
      else if s.games.any
          (fun g => g.id == gameID && g.stateVersion == newGame.stateVersion - 1) then
        (.ok (pgHistory (pgMoveCommit s gameID clientID newGame rec ply).moves gameID),
         pgMoveCommit s gameID clientID newGame rec ply)
      else
        (.error .versionConflict, s)

/-! ### Replay of a move history (spec §3 invariants) -/

/-- `chainOk f l cur`: the history `l` replays from position `f` to
position `cur` — the first item's position-before is `f`, each item's
position-before equals the previous item's position-after, and the last
item's position-after is `cur` (for an empty history, `f = cur`). -/
def chainOk (f : String) (l : List MoveHistoryItem) (cur : String) : Bool :=
  match l with
  | [] => f == cur
  | it :: rest => f == it.fenBefore && chainOk it.fenAfter rest cur

/-- `plysFrom k l`: the items of `l` carry consecutive ply indices
`k, k+1, …` (so `plysFrom 0` means item `i` has ply `i`). -/
def plysFrom (k : Int) : List MoveHistoryItem → Bool
  | [] => true
  | it :: rest => it.ply == k && plysFrom (k + 1) rest

/-- States of the in-memory store reachable for game `gid`: the game
starts from the initial position with `state_version` 0 and an empty
history, and evolves by successfully accepted `SubmitMove` calls;
`Reaches E gid s n` counts the accepted moves `n` of game `gid`
(accepted moves of other games are allowed in between). -/
inductive Reaches (E : ChessEngine) (gid : Nat) : MemStore → Nat → Prop where
  | base (s : MemStore) (g : Game) :
      findGame s.games gid = some g →
      g.stateVersion = 0 →
      g.plyCount = 0 →
      g.fen = initialFEN →
      histOf s.history gid = [] →
      Reaches E gid s 0
  | stepSame (s s' : MemStore) (n : Nat) (clientID : Nat) (uci : String)
      (ev now : Int) (recId : Nat) (r : SubmitResult) :
      Reaches E gid s n →
      submitMove E s gid clientID uci ev true now recId = (.ok r, s') →
      Reaches E gid s' (n + 1)
  | stepOther (s s' : MemStore) (n : Nat) (gameID clientID : Nat)
      (uci : String) (ev now : Int) (recId : Nat) (r : SubmitResult) :
      Reaches E gid s n →
      gameID ≠ gid →
      submitMove E s gameID clientID uci ev true now recId = (.ok r, s') →
      Reaches E gid s' n

/-! ### Helper lemmas about the map operations -/

theorem findGame_id {games : List Game} {i : Nat} {g : Game}
    (h : findGame games i = some g) : g.id = i := by
  induction games with
  | nil => simp [findGame] at h
  | cons x xs ih =>
      by_cases hx : x.id = i
      · simp [findGame, hx] at h
        rw [← h, hx]
      · simp [findGame, hx] at h
        exact ih h

theorem findGame_put_self {games : List Game} {i : Nat} {g : Game} (ng : Game)
    (hid : ng.id = i) (hf : findGame games i = some g) :
    findGame (putGame games i ng) i = some ng := by
  induction games with
  | nil => simp [findGame] at hf
  | cons x xs ih =>
      by_cases hx : x.id = i
      · simp [findGame, putGame, hx, hid]
      · simp [findGame, putGame, hx] at hf ⊢
        exact ih hf

theorem findGame_put_other {games : List Game} {i j : Nat} (ng : Game)
    (hne : j ≠ i) (hid : ng.id = j) :
    findGame (putGame games j ng) i = findGame games i := by
  have hij : i ≠ j := fun hh => hne hh.symm
  induction games with
  | nil => simp [putGame]
  | cons x xs ih =>
      by_cases hx : x.id = j
      · have hni : ng.id ≠ i := by rw [hid]; exact hne
        have hxi : x.id ≠ i := by rw [hx]; exact hne
        simp [findGame, putGame, hx, hni, hxi, hne, hij, ih]
      · by_cases hxi : x.id = i
        · simp [findGame, putGame, hx, hxi, hne, hij]
        · simp [findGame, putGame, hx, hxi, hne, hij, ih]

theorem histOf_put_self (h : List (Nat × List MoveHistoryItem)) (i : Nat)
    (v : List MoveHistoryItem) : histOf (putHist h i v) i = v := by
  induction h with
  | nil => simp [putHist, histOf]
  | cons p rest ih =>
      by_cases hp : p.1 = i
      · simp [putHist, histOf, hp]
      · simp [putHist, histOf, hp, ih]

theorem histOf_put_other (h : List (Nat × List MoveHistoryItem)) {i j : Nat}
    (v : List MoveHistoryItem) (hne : j ≠ i) :
    histOf (putHist h j v) i = histOf h i := by
  have hij : i ≠ j := fun hh => hne hh.symm
  induction h with
  | nil => simp [putHist, histOf, hne]
  | cons p rest ih =>
      by_cases hp : p.1 = j
      · have hpi : p.1 ≠ i := by rw [hp]; exact hne
        simp [putHist, histOf, hp, hne, hij, hpi, ih]
      · by_cases hpi : p.1 = i
        · simp [putHist, histOf, hp, hpi, hne, hij]
        · simp [putHist, histOf, hp, hpi, hne, hij, ih]

/-! ### Helper lemmas about replay chains -/

theorem chainOk_append {f cur cur' : String} {l : List MoveHistoryItem}
    (it : MoveHistoryItem) (h : chainOk f l cur = true)
    (hb : it.fenBefore = cur) (ha : it.fenAfter = cur') :
    chainOk f (l ++ [it]) cur' = true := by
  induction l generalizing f with
  | nil =>
      simp [chainOk] at h
      simp [chainOk, h, hb, ha]
  | cons x xs ih =>
      simp [chainOk] at h ⊢
      exact ⟨h.1, ih h.2⟩

theorem plysFrom_append {k : Int} {l : List MoveHistoryItem}
    (it : MoveHistoryItem) (h : plysFrom k l = true)
    (hp : it.ply = k + l.length) :
    plysFrom k (l ++ [it]) = true := by
  induction l generalizing k with
  | nil =>
      simp at hp
      simp [plysFrom, hp]
  | cons x xs ih =>
      simp [plysFrom] at h ⊢
      refine ⟨h.1, ih h.2 ?_⟩
      simp at hp ⊢
      omega

/-! ### Elimination lemmas for the store operations -/

theorem persistMove_error {s : MemStore} {gameID clientID : Nat} {ng : Game}
    {rec : MoveRecord} {ply : Int} {e : Err} {s' : MemStore}
    (h : s.persistMove gameID clientID ng rec ply = (.error e, s')) :
    s' = s := by
  unfold MemStore.persistMove at h
  split at h
  · injection h with h1 h2; exact h2.symm
  · split at h
    · injection h with h1 h2; exact h2.symm
    · split at h
      · injection h with h1 h2; exact h2.symm
      · split at h
        · injection h with h1 h2; exact h2.symm
        · injection h with h1 h2; injection h1

theorem claimNextGame_error {s : MemStore} {c : Nat} {e : Err} {s' : MemStore}
    (h : s.claimNextGame c = (.error e, s')) : s' = s := by
  unfold MemStore.claimNextGame at h
  split at h
  · injection h with h1 h2; exact h2.symm
  · split at h
    · injection h with h1 h2; injection h1
    · injection h with h1 h2; injection h1

theorem submitMove_error {E : ChessEngine} {s : MemStore}
    {gameID clientID : Nat} {uci : String} {ev : Int} {allow : Bool}
    {now : Int} {recId : Nat} {e : Err} {s' : MemStore}
    (h : submitMove E s gameID clientID uci ev allow now recId
           = (.error e, s')) :
    s' = s := by
  unfold submitMove at h
  split at h
  · injection h with h1 h2; exact h2.symm
  · split at h
    · injection h with h1 h2; exact h2.symm
    · split at h
      · injection h with h1 h2; exact h2.symm
      · split at h
        · injection h with h1 h2; exact h2.symm
        · split at h
          · rename_i hist s1 hp
            injection h with h1 h2
            rw [h2] at hp
            exact persistMove_error hp
          · injection h with h1 h2; injection h1

theorem applyMove_ok {E : ChessEngine} {g : Game} {uci : String} {now : Int}
    {recId : Nat} {ng : Game} {rec : MoveRecord}
    (h : g.applyMove E uci now recId = .ok (ng, rec)) :
    ∃ fa, E.moveStr g.fen uci = some fa ∧
      (g.status = .ongoing ∨ g.status = .waiting) ∧
      isValidUCISyntax uci = true ∧
      E.fenOk g.fen = true ∧
      ng = successorGame E g uci now fa ∧
      rec = mkRecord recId uci g.fen fa now := by
  unfold Game.applyMove at h
  split at h
  · injection h
  · rename_i hst
    split at h
    · injection h
    · rename_i hu
      split at h
      · injection h
      · rename_i hf
        split at h
        · injection h
        · rename_i fa hfa
          injection h with h1
          injection h1 with hng hrec
          have hstatus : g.status = .ongoing ∨ g.status = .waiting := by
            rcases not_and_or.mp hst with hh | hh
            · exact Or.inl (not_not.mp hh)
            · exact Or.inr (not_not.mp hh)
          exact ⟨fa, hfa, hstatus, not_not.mp hu, not_not.mp hf,
                 hng.symm, hrec.symm⟩

theorem persistMove_ok {s : MemStore} {gameID clientID : Nat} {ng : Game}
    {rec : MoveRecord} {ply : Int} {hist : List MoveHistoryItem}
    {s' : MemStore}
    (h : s.persistMove gameID clientID ng rec ply = (.ok hist, s')) :
    s.assigned.contains (gameID, clientID) = true ∧
    s.moved.contains (gameID, clientID) = false ∧
    (∃ cur, findGame s.games gameID = some cur ∧
        cur.stateVersion = ng.stateVersion - 1) ∧
    hist = histOf s.history gameID ++ [mkItem clientID rec ply] ∧
    s' = { s with
           games := putGame s.games gameID ng
           moved := (gameID, clientID) :: s.moved
           history := putHist s.history gameID
             (histOf s.history gameID ++ [mkItem clientID rec ply]) } := by
  unfold MemStore.persistMove at h
  split at h
  · injection h with h1 h2; injection h1
  · rename_i hassigned
    split at h
    · injection h with h1 h2; injection h1
    · rename_i hmoved
      split at h
      · injection h with h1 h2; injection h1
      · rename_i cur hcur
        split at h
        · injection h with h1 h2; injection h1
        · rename_i hcas
          injection h with h1 h2
          injection h1 with h1
          refine ⟨not_not.mp hassigned, by simpa using hmoved,
                  ⟨cur, hcur, not_not.mp hcas⟩, h1.symm, h2.symm⟩

theorem submitMove_ok {E : ChessEngine} {s : MemStore} {gameID clientID : Nat}
    {uci : String} {ev : Int} {allow : Bool} {now : Int} {recId : Nat}
    {r : SubmitResult} {s' : MemStore}
    (h : submitMove E s gameID clientID uci ev allow now recId = (.ok r, s')) :
    ∃ g ng rec,
      findGame s.games gameID = some g ∧
      g.stateVersion = ev ∧
      g.applyMove E uci now recId = .ok (ng, rec) ∧
      s.persistMove gameID clientID ng rec (ng.plyCount - 1)
        = (.ok r.history, s') ∧
      r.game = ng ∧ r.move = rec := by
  unfold submitMove at h
  split at h
  · injection h with h1 h2; injection h1
  · split at h
    · injection h with h1 h2; injection h1
    · rename_i g hg
      split at h
      · injection h with h1 h2; injection h1
      · rename_i hver
        split at h
        · injection h with h1 h2; injection h1
        · rename_i ng rec happ
          split at h
          · injection h with h1 h2; injection h1
          · rename_i hist s1 hp
            injection h with h1 h2
            subst h2
            cases h1
            exact ⟨g, ng, rec, hg, not_not.mp hver, happ, hp, rfl, rfl⟩

theorem pgPersistMove_error {s : PgStore} {gameID clientID : Nat} {ng : Game}
    {rec : MoveRecord} {ply : Int} {e : Err} {s' : PgStore}
    (h : s.persistMove gameID clientID ng rec ply = (.error e, s')) :
    s' = s := by
  unfold PgStore.persistMove at h
  split at h
  · injection h with h1 h2; exact h2.symm
  · split at h
    · injection h with h1 h2; exact h2.symm
    · split at h
      · injection h with h1 h2; injection h1
      · injection h with h1 h2; exact h2.symm

theorem pgClaimNextGame_error {s : PgStore} {c : Nat} {now : Int} {e : Err}
    {s' : PgStore} (h : s.claimNextGame c now = (.error e, s')) : s' = s := by
  unfold PgStore.claimNextGame at h
  split at h
  · injection h with h1 h2; exact h2.symm
  · split at h
    · injection h with h1 h2; exact h2.symm
    · injection h with h1 h2; injection h1

theorem pgPersistMove_ok {s : PgStore} {gameID clientID : Nat} {ng : Game}
    {rec : MoveRecord} {ply : Int} {hist : List MoveHistoryItem}
    {s' : PgStore}
    (h : s.persistMove gameID clientID ng rec ply = (.ok hist, s')) :
    (∃ p, s.players.find?
        (fun p => p.gameId == gameID && p.clientId == clientID) = some p ∧
        p.hasMoved = false) ∧
    s.games.any
      (fun g => g.id == gameID && g.stateVersion == ng.stateVersion - 1)
      = true ∧
    hist = pgHistory (pgMoveCommit s gameID clientID ng rec ply).moves gameID ∧
    s' = pgMoveCommit s gameID clientID ng rec ply := by
  unfold PgStore.persistMove at h
  split at h
  · injection h with h1 h2; injection h1
  · rename_i p hp
    split at h
    · injection h with h1 h2; injection h1
    · rename_i hmoved
      split at h
      · rename_i hany
        injection h with h1 h2
        injection h1 with h1
        exact ⟨⟨p, hp, by simpa using hmoved⟩, by simpa using hany,
               h1.symm, h2.symm⟩
      · injection h with h1 h2; injection h1

/-! ### Concrete fixtures used by the witnesses -/

/-- A trivial concrete rule engine: every FEN parses, every move is
legal and appends the move to the position string, no game ever ends.
Only used to instantiate witnesses; all theorems quantify over the
engine. -/
def testEngine : ChessEngine :=
  { fenOk := fun _ => true
    moveStr := fun f u => some (f ++ " " ++ u)
    whiteToMove := fun _ => false
    outcome := fun _ => .noOutcome
    method := fun _ => .otherMethod }

/-- A concrete engine that rejects every move, for the illegal-move
witness. -/
def noMoveEngine : ChessEngine :=
  { fenOk := fun _ => true
    moveStr := fun _ _ => none
    whiteToMove := fun _ => true
    outcome := fun _ => .noOutcome
    method := fun _ => .otherMethod }

def wGame : Game := mkInitialGame 1 0

def wRec : MoveRecord := mkRecord 5 "e2e4" initialFEN "X" 3

def wStore : MemStore :=
  { games := [wGame], assigned := [(1, 7)], moved := [], history := []
    nextId := 10 }

def wStoreMoved : MemStore :=
  { games := [wGame], assigned := [(1, 7)], moved := [(1, 7)], history := []
    nextId := 10 }

def wPg : PgStore := { games := [wGame], players := [], moves := [], nextId := 10 }

def wPgAssigned : PgStore :=
  { games := [wGame]
    players := [{ gameId := 1, clientId := 7, hasMoved := false, createdAt := 0 }]
    moves := [], nextId := 10 }

def wPgMoved : PgStore :=
  { games := [wGame]
    players := [{ gameId := 1, clientId := 7, hasMoved := true, createdAt := 0 }]
    moves := [], nextId := 10 }

def wSucc : Game := { wGame with stateVersion := 1, plyCount := 1, fen := "X" }

def wStoreAfter : MemStore :=
  { games := [wSucc], assigned := [(1, 7)], moved := [(1, 7)]
    history := [(1, [mkItem 7 wRec 0])], nextId := 10 }

def wFen2 : String := initialFEN ++ " " ++ "e2e4"

def wNg : Game := successorGame testEngine wGame "e2e4" 3 wFen2

def wRec2 : MoveRecord := mkRecord 5 "e2e4" initialFEN wFen2 3

def wR : SubmitResult :=
  { move := wRec2, game := wNg, history := [mkItem 7 wRec2 0]
    shouldFetchNext := false }

def wS2 : MemStore :=
  { games := [wNg], assigned := [(1, 7)], moved := [(1, 7)]
    history := [(1, [mkItem 7 wRec2 0])], nextId := 10 }

/-! ### Claim theorems -/

theorem submitMove_conflict_helper {E : ChessEngine} {s : MemStore}
    {gameID : Nat} (clientID : Nat) (uci : String) {ev : Int} (now : Int)
    (recId : Nat) {g : Game} (hg : findGame s.games gameID = some g)
    (hne : g.stateVersion ≠ ev) :
    submitMove E s gameID clientID uci ev true now recId
      = (.error .versionConflict, s) := by
  unfold submitMove
  simp [hg, hne]

/-- **C10**: in the Move Submitter the advisory version check precedes
all rule validation: whenever the stored game's `state_version` differs
from the caller-supplied `expected_version`, `SubmitMove` returns
`VersionConflict` and leaves the store unchanged, for every rule engine
and every move string (in particular syntactically invalid or illegal
ones), so such a request yields `VersionConflict` rather than
`InvalidUCI` or `IllegalMove`. -/
theorem submit_version_check_precedes_validation
    (E : ChessEngine) (s : MemStore) (gameID clientID : Nat) (uci : String)
    (ev : Int) (now : Int) (recId : Nat) (g : Game)
    (hg : findGame s.games gameID = some g) (hne : g.stateVersion ≠ ev) :
    submitMove E s gameID clientID uci ev true now recId
      = (.error .versionConflict, s) :=
  submitMove_conflict_helper clientID uci now recId hg hne

/-- Witness for `submit_version_check_precedes_validation`: version 0
stored, expected version 3, garbage move string. -/
theorem submit_version_check_precedes_validation_witness :
    findGame wStore.games 1 = some wGame ∧ wGame.stateVersion ≠ 3 ∧
    submitMove testEngine wStore 1 7 "zzzz" 3 true 0 5
      = (.error .versionConflict, wStore) :=
  ⟨by decide, by decide,
   submit_version_check_precedes_validation testEngine wStore 1 7 "zzzz" 3 0 5
     wGame (by decide) (by decide)⟩

/-- **C5**: `PersistMove` returns `NotAssigned` when no assignment row
exists for (game, client) and `AlreadyMoved` when the row exists with
`has_moved` true, in both backends, regardless of the submitted move's
content (`newGame`, `rec`, `ply` are arbitrary); and after a successful
`PersistMove` any further move by the same client in the same game gets
`AlreadyMoved`. -/
theorem persistMove_assignment_errors
    (s : MemStore) (t : PgStore) (gameID clientID : Nat) (ng : Game)
    (rec : MoveRecord) (ply : Int) :
    (s.assigned.contains (gameID, clientID) = false →
      s.persistMove gameID clientID ng rec ply = (.error .notAssigned, s)) ∧
    (s.assigned.contains (gameID, clientID) = true →
      s.moved.contains (gameID, clientID) = true →
      s.persistMove gameID clientID ng rec ply = (.error .alreadyMoved, s)) ∧
    (t.players.find?
        (fun p => p.gameId == gameID && p.clientId == clientID) = none →
      t.persistMove gameID clientID ng rec ply = (.error .notAssigned, t)) ∧
    (∀ p, t.players.find?
        (fun p => p.gameId == gameID && p.clientId == clientID) = some p →
      p.hasMoved = true →
      t.persistMove gameID clientID ng rec ply = (.error .alreadyMoved, t)) ∧
    (∀ hist s', s.persistMove gameID clientID ng rec ply = (.ok hist, s') →
      ∀ ng' rec' ply',
        s'.persistMove gameID clientID ng' rec' ply'
          = (.error .alreadyMoved, s')) := by
  refine ⟨?_, ?_, ?_, ?_, ?_⟩
  · intro hna
    have hna' : (gameID, clientID) ∉ s.assigned := by simpa using hna
    unfold MemStore.persistMove
    simp [hna']
  · intro ha hm
    have ha' : (gameID, clientID) ∈ s.assigned := by simpa using ha
    have hm' : (gameID, clientID) ∈ s.moved := by simpa using hm
    unfold MemStore.persistMove
    simp [ha', hm']
  · intro hfind
    unfold PgStore.persistMove
    simp [hfind]
  · intro p hfind hmoved
    unfold PgStore.persistMove
    simp [hfind, hmoved]
  · intro hist s' hok ng' rec' ply'
    obtain ⟨hassigned, _, _, _, hs'⟩ := persistMove_ok hok
    have ha' : (gameID, clientID) ∈ s.assigned := by simpa using hassigned
    subst hs'
    unfold MemStore.persistMove
    simp [ha']

/-- Witness for `persistMove_assignment_errors`: exercises the
not-assigned case (client 99), the already-moved case (client 7 of
`wStoreMoved`), the two postgres cases, and the moved-after-success
case. -/
theorem persistMove_assignment_errors_witness :
    (wStore.persistMove 1 99 wGame wRec 0 = (.error .notAssigned, wStore)) ∧
    (wStoreMoved.persistMove 1 7 wGame wRec 0
      = (.error .alreadyMoved, wStoreMoved)) ∧
    (wPg.persistMove 1 7 wGame wRec 0 = (.error .notAssigned, wPg)) ∧
    (wPgMoved.persistMove 1 7 wGame wRec 0
      = (.error .alreadyMoved, wPgMoved)) :=
  ⟨(persistMove_assignment_errors wStore wPg 1 99 wGame wRec 0).1 (by decide),
   (persistMove_assignment_errors wStoreMoved wPg 1 7 wGame wRec 0).2.1
     (by decide) (by decide),
   (persistMove_assignment_errors wStore wPg 1 7 wGame wRec 0).2.2.1
     (by decide),
   (persistMove_assignment_errors wStore wPgMoved 1 7 wGame wRec 0).2.2.2.1
     { gameId := 1, clientId := 7, hasMoved := true, createdAt := 0 }
     (by decide) (by decide)⟩

/-- **C9**: `GetNext` first attempts the claim; a successful claim is
returned as is; a claim failure other than `NoGamesAvailable` is
propagated without creating a batch; and exactly on `NoGamesAvailable`
one batch of the configured size is created and the claim is retried
exactly once, whose result — in particular a second
`NoGamesAvailable` — is surfaced to the caller. -/
theorem getNext_control_flow {σ : Type} (ops : StoreOps σ) (s : σ)
    (clientID batchSize : Nat) (now : Int) :
    (∀ r s1, ops.claimNextGame s clientID = (.ok r, s1) →
        getNext ops s clientID batchSize true now = (.ok r, s1)) ∧
    (∀ e s1, ops.claimNextGame s clientID = (.error e, s1) →
        e ≠ .noGamesAvailable →
        getNext ops s clientID batchSize true now = (.error e, s1)) ∧
    (∀ s1, ops.claimNextGame s clientID = (.error .noGamesAvailable, s1) →
        getNext ops s clientID batchSize true now =
          ops.claimNextGame (ops.createWaitingBatch s1 batchSize now)
            clientID) := by
  refine ⟨?_, ?_, ?_⟩
  · intro r s1 hc
    unfold getNext
    simp [hc]
  · intro e s1 hc hne
    unfold getNext
    simp [hc, hne]
  · intro s1 hc
    unfold getNext
    simp [hc]

/-- Witness for `getNext_control_flow`: client 8 can claim directly
(first conjunct); client 7 has already been assigned the only game, so
its claim fails with `NoGamesAvailable` and `GetNext` equals the
retried claim after batch creation (third conjunct). -/
theorem getNext_control_flow_witness :
    (getNext memOps wStore 8 2 true 0
      = (.ok (wGame, []), { wStore with assigned := (1, 8) :: [(1, 7)] })) ∧
    (getNext memOps wStore 7 2 true 0
      = memOps.claimNextGame
          (memOps.createWaitingBatch wStore 2 0) 7) :=
  ⟨(getNext_control_flow memOps wStore 8 2 0).1
     (wGame, []) { wStore with assigned := (1, 8) :: [(1, 7)] } (by decide),
   (getNext_control_flow memOps wStore 7 2 0).2.2 wStore (by decide)⟩

/-- **C1**: `PersistMove` is atomic in both backends: every error return
(`NotAssigned`, `AlreadyMoved`, `VersionConflict`, not-found) leaves
the store completely unchanged, and on success all effects — history
insert, game update, `has_moved` flag — take place together. -/
theorem persistMove_atomic
    (s : MemStore) (t : PgStore) (gameID clientID : Nat) (ng : Game)
    (rec : MoveRecord) (ply : Int) :
    (∀ e s', s.persistMove gameID clientID ng rec ply = (.error e, s') →
        s' = s) ∧
    (∀ hist s', s.persistMove gameID clientID ng rec ply = (.ok hist, s') →
        (ng.id = gameID → findGame s'.games gameID = some ng) ∧
        s'.moved.contains (gameID, clientID) = true ∧
        histOf s'.history gameID
          = histOf s.history gameID ++ [mkItem clientID rec ply]) ∧
    (∀ e t', t.persistMove gameID clientID ng rec ply = (.error e, t') →
        t' = t) ∧
    (∀ hist t', t.persistMove gameID clientID ng rec ply = (.ok hist, t') →
        t'.moves = t.moves ++ [mkMoveRow gameID clientID rec ply] ∧
        (∃ row ∈ t'.games, row.id = gameID ∧
            row.stateVersion = ng.stateVersion) ∧
        (∀ q ∈ t'.players, q.gameId = gameID → q.clientId = clientID →
            q.hasMoved = true)) := by
  refine ⟨?_, ?_, ?_, ?_⟩
  · intro e s' h
    exact persistMove_error h
  · intro hist s' h
    obtain ⟨ha, hm, ⟨cur, hcur, hcas⟩, hh, hs'⟩ := persistMove_ok h
    subst hs'
    refine ⟨?_, by simp, histOf_put_self s.history gameID _⟩
    intro hid
    exact findGame_put_self ng hid hcur
  · intro e t' h
    exact pgPersistMove_error h
  · intro hist t' h
    obtain ⟨⟨p, hp, hpm⟩, hany, hh, ht'⟩ := pgPersistMove_ok h
    subst ht'
    refine ⟨rfl, ?_, ?_⟩
    · obtain ⟨g0, hg0, hcond⟩ := List.any_eq_true.mp hany
      have hcond' := hcond
      simp only [Bool.and_eq_true, beq_iff_eq] at hcond'
      refine ⟨applyGameUpdate g0 ng, ?_, hcond'.1, by simp [applyGameUpdate]⟩
      exact List.mem_map.mpr ⟨g0, hg0, by simp [hcond]⟩
    · intro q hq hqg hqc
      obtain ⟨q0, hq0, hq0e⟩ := List.mem_map.mp hq
      by_cases hc : (q0.gameId == gameID && q0.clientId == clientID) = true
      · rw [if_pos hc] at hq0e
        rw [← hq0e]
      · rw [if_neg hc] at hq0e
        subst hq0e
        simp only [Bool.and_eq_true, beq_iff_eq, not_and_or] at hc
        rcases hc with hc | hc <;> [exact absurd hqg hc; exact absurd hqc hc]

/-- Witness for `persistMove_atomic`: the not-assigned error leaves the
store unchanged; a successful memory persist yields the updated game,
the moved flag and the appended history; a successful postgres persist
appends the move row. -/
theorem persistMove_atomic_witness :
    wStore = wStore ∧
    findGame wStoreAfter.games 1 = some wSucc ∧
    wStoreAfter.moved.contains (1, 7) = true ∧
    histOf wStoreAfter.history 1
      = histOf wStore.history 1 ++ [mkItem 7 wRec 0] ∧
    (pgMoveCommit wPgAssigned 1 7 wSucc wRec 0).moves
      = wPgAssigned.moves ++ [mkMoveRow 1 7 wRec 0] :=
  ⟨(persistMove_atomic wStore wPg 1 99 wGame wRec 0).1 .notAssigned wStore
     (by decide),
   ((persistMove_atomic wStore wPg 1 7 wSucc wRec 0).2.1
      [mkItem 7 wRec 0] wStoreAfter (by decide)).1 (by decide),
   ((persistMove_atomic wStore wPg 1 7 wSucc wRec 0).2.1
      [mkItem 7 wRec 0] wStoreAfter (by decide)).2.1,
   ((persistMove_atomic wStore wPg 1 7 wSucc wRec 0).2.1
      [mkItem 7 wRec 0] wStoreAfter (by decide)).2.2,
   ((persistMove_atomic wStore wPgAssigned 1 7 wSucc wRec 0).2.2.2
      (pgHistory (pgMoveCommit wPgAssigned 1 7 wSucc wRec 0).moves 1)
      (pgMoveCommit wPgAssigned 1 7 wSucc wRec 0) rfl).1⟩

/-- **C4**: the CAS — `PersistMove` updates the game row exactly when
the stored `state_version` equals `successor.state_version - 1` and
returns `VersionConflict` otherwise (both backends); consequently, of
two move submissions for the same game computed against the same
expected version, if the first succeeds the second receives
`VersionConflict`, so at most one succeeds. -/
theorem persistMove_cas (E E' : ChessEngine) (s : MemStore) (t : PgStore)
    (gameID c1 c2 : Nat) (ng : Game) (rec : MoveRecord) (ply : Int)
    (uci1 uci2 : String) (ev now now' : Int) (recId recId' : Nat) :
    (∀ cur, findGame s.games gameID = some cur →
      (gameID, c1) ∈ s.assigned → (gameID, c1) ∉ s.moved →
      (cur.stateVersion ≠ ng.stateVersion - 1 →
        s.persistMove gameID c1 ng rec ply = (.error .versionConflict, s)) ∧
      (cur.stateVersion = ng.stateVersion - 1 →
        ∃ s', s.persistMove gameID c1 ng rec ply
            = (.ok (histOf s.history gameID ++ [mkItem c1 rec ply]), s') ∧
          s'.games = putGame s.games gameID ng)) ∧
    ((∀ row ∈ t.games, row.id = gameID →
        row.stateVersion ≠ ng.stateVersion - 1) →
      (∃ p, t.players.find? (fun p => p.gameId == gameID && p.clientId == c1)
          = some p ∧ p.hasMoved = false) →
      t.persistMove gameID c1 ng rec ply = (.error .versionConflict, t)) ∧
    (∀ r s', submitMove E s gameID c1 uci1 ev true now recId = (.ok r, s') →
      submitMove E' s' gameID c2 uci2 ev true now' recId'
        = (.error .versionConflict, s')) := by
  refine ⟨?_, ?_, ?_⟩
  · intro cur hcur ha hm
    constructor
    · intro hne
      unfold MemStore.persistMove
      simp [ha, hm, hcur, hne]
    · intro heq
      unfold MemStore.persistMove
      simp [ha, hm, hcur, heq]
  · intro hrows hpe
    obtain ⟨p, hp, hpm⟩ := hpe
    have hany : t.games.any
        (fun g => g.id == gameID && g.stateVersion == ng.stateVersion - 1)
        = false := by
      rw [List.any_eq_false]
      intro row hrow
      simp only [Bool.and_eq_true, beq_iff_eq, not_and_or]
      by_cases hid : row.id = gameID
      · exact Or.inr (hrows row hrow hid)
      · exact Or.inl hid
    unfold PgStore.persistMove
    simp [hp, hpm, hany]
  · intro r s' hsub
    obtain ⟨g, ng1, rec1, hg, hver, happ, hp, _, _⟩ := submitMove_ok hsub
    obtain ⟨fa, hfa, _, _, _, hng1, _⟩ := applyMove_ok happ
    obtain ⟨_, _, _, _, hs'⟩ := persistMove_ok hp
    have hid : ng1.id = gameID := by
      rw [hng1]
      simpa [successorGame] using findGame_id hg
    have hv : ng1.stateVersion = g.stateVersion + 1 := by
      rw [hng1]
      simp [successorGame]
    subst hs'
    have hfind : findGame (putGame s.games gameID ng1) gameID = some ng1 :=
      findGame_put_self ng1 hid hg
    apply submitMove_conflict_helper c2 uci2 now' recId' hfind
    rw [hv, hver]
    omega

/-- Witness for `persistMove_cas`: a version mismatch in both backends
and a back-to-back double submission against the same expected
version. -/
theorem persistMove_cas_witness :
    wStore.persistMove 1 7 wGame wRec 0 = (.error .versionConflict, wStore) ∧
    wPgAssigned.persistMove 1 7 wGame wRec 0
      = (.error .versionConflict, wPgAssigned) ∧
    submitMove testEngine wS2 1 8 "e7e5" 0 true 4 6
      = (.error .versionConflict, wS2) :=
  ⟨((persistMove_cas testEngine testEngine wStore wPg 1 7 8 wGame wRec 0
       "a" "b" 0 0 0 0 0).1 wGame (by decide) (by decide) (by decide)).1
     (by decide),
   (persistMove_cas testEngine testEngine wStore wPgAssigned 1 7 8 wGame wRec 0
      "a" "b" 0 0 0 0 0).2.1 (by decide)
     ⟨{ gameId := 1, clientId := 7, hasMoved := false, createdAt := 0 },
      by decide, rfl⟩,
   (persistMove_cas testEngine testEngine wStore wPg 1 7 8 wGame wRec 0
      "e2e4" "e7e5" 0 3 4 5 6).2.2 wR wS2 (by decide)⟩

theorem not_lt_decide (x y : Char) : (!decide (x < y)) = decide (y ≤ x) := by
  by_cases h : x < y
  · simp [h, not_le.mpr h]
  · simp [h, not_lt.mp h]

theorem uci_code_eq_spec (s : String) :
    isValidUCISyntax s = uciWellFormedSpec s := by
  unfold isValidUCISyntax uciWellFormedSpec fileOk rankOk
  match s.data with
  | [] => simp
  | [a] => simp
  | [a, b] => simp
  | [a, b, c] => simp
  | [a, b, c, d] => simp [not_lt_decide, List.getD]
  | [a, b, c, d, e] => simp [not_lt_decide, List.getD]
  | a :: b :: c :: d :: e :: f :: rest => simp

/-- **C6**: `ApplyMove` rejects with `GameNotOngoing` exactly when the
status is outside {waiting, ongoing}; otherwise with `InvalidUCI`
exactly when the string fails the code's syntax check — which coincides
with the spec's description of well-formed coordinate notation —;
otherwise, provided the stored position parses, with `IllegalMove`
exactly when the engine rejects the move in the stored position. -/
theorem applyMove_error_classification (E : ChessEngine) (g : Game)
    (uci : String) (now : Int) (recId : Nat) :
    (g.applyMove E uci now recId = .error .gameNotOngoing ↔
      (g.status ≠ .waiting ∧ g.status ≠ .ongoing)) ∧
    ((g.status = .waiting ∨ g.status = .ongoing) →
      (g.applyMove E uci now recId = .error .invalidUCI ↔
        isValidUCISyntax uci = false)) ∧
    ((g.status = .waiting ∨ g.status = .ongoing) →
      isValidUCISyntax uci = true → E.fenOk g.fen = true →
      (g.applyMove E uci now recId = .error .illegalMove ↔
        E.moveStr g.fen uci = none)) ∧
    (∀ x : String, isValidUCISyntax x = uciWellFormedSpec x) := by
  refine ⟨?_, ?_, ?_, uci_code_eq_spec⟩
  · constructor
    · intro h
      by_cases h1 : g.status = .waiting
      · exfalso
        by_cases hv : isValidUCISyntax uci = true
        · by_cases hf : E.fenOk g.fen = true
          · cases hm : E.moveStr g.fen uci <;>
              simp [Game.applyMove, h1, hv, hf, hm] at h
          · simp [Game.applyMove, h1, hv, hf] at h
        · simp [Game.applyMove, h1, hv] at h
      · by_cases h2 : g.status = .ongoing
        · exfalso
          by_cases hv : isValidUCISyntax uci = true
          · by_cases hf : E.fenOk g.fen = true
            · cases hm : E.moveStr g.fen uci <;>
                simp [Game.applyMove, h2, hv, hf, hm] at h
            · simp [Game.applyMove, h2, hv, hf] at h
          · simp [Game.applyMove, h2, hv] at h
        · exact ⟨h1, h2⟩
    · intro hb
      unfold Game.applyMove
      simp [hb.1, hb.2]
  · intro hst
    constructor
    · intro h
      by_cases hv : isValidUCISyntax uci = true
      · exfalso
        by_cases hf : E.fenOk g.fen = true
        · cases hm : E.moveStr g.fen uci <;>
            rcases hst with hh | hh <;>
              simp [Game.applyMove, hh, hv, hf, hm] at h
        · rcases hst with hh | hh <;>
            simp [Game.applyMove, hh, hv, hf] at h
      · simpa using hv
    · intro hu
      rcases hst with hh | hh <;> simp [Game.applyMove, hh, hu]
  · intro hst hu hf
    constructor
    · intro h
      cases hm : E.moveStr g.fen uci with
      | none => rfl
      | some fa =>
          exfalso
          rcases hst with hh | hh <;>
            simp [Game.applyMove, hh, hu, hf, hm] at h
    · intro hnone
      rcases hst with hh | hh <;> simp [Game.applyMove, hh, hu, hf, hnone]

/-- Witness for `applyMove_error_classification`: a fresh ongoing game
rejects the garbage string `zzzz` with `InvalidUCI`, and an engine
reporting the move illegal yields `IllegalMove` for `e2e5`. -/
theorem applyMove_error_classification_witness :
    (wGame.applyMove testEngine "zzzz" 0 5 = .error .invalidUCI ↔
      isValidUCISyntax "zzzz" = false) ∧
    (wGame.applyMove noMoveEngine "e2e5" 0 5 = .error .illegalMove ↔
      noMoveEngine.moveStr wGame.fen "e2e5" = none) :=
  ⟨(applyMove_error_classification testEngine wGame "zzzz" 0 5).2.1
     (Or.inr (by decide)),
   (applyMove_error_classification noMoveEngine wGame "e2e5" 0 5).2.2.1
     (Or.inr (by decide)) (by decide) (by decide)⟩

/-- **C7**: on success `ApplyMove` returns a fully derived successor:
the post-move position and side to move, `ply_count + 1`,
`state_version + 1`, identity and creation time preserved, timestamps
set to `now`, and status/result derived from the terminal condition of
the resulting position via `outcomeToStatus` — checkmate gives the
checkmate status with the winner's result, stalemate gives stalemate,
any other draw condition gives draw, and no outcome gives ongoing with
no result.  The receiver is never mutated: the embedding is a pure
function of the receiver. -/
theorem applyMove_success_fields (E : ChessEngine) (g : Game)
    (uci : String) (now : Int) (recId : Nat) (ng : Game) (rec : MoveRecord)
    (h : g.applyMove E uci now recId = .ok (ng, rec)) :
    ∃ fa, E.moveStr g.fen uci = some fa ∧
      ng.fen = fa ∧
      ng.sideToMove = colorName (E.whiteToMove fa) ∧
      ng.plyCount = g.plyCount + 1 ∧
      ng.stateVersion = g.stateVersion + 1 ∧
      ng.id = g.id ∧
      ng.createdAt = g.createdAt ∧
      ng.updatedAt = now ∧
      ng.lastMoveUCI = some uci ∧
      ng.lastMoveAt = some now ∧
      (ng.status, ng.result) = outcomeToStatus (E.outcome fa) (E.method fa) ∧
      rec = mkRecord recId uci g.fen fa now ∧
      (E.outcome fa = .whiteWon → E.method fa = .checkmate →
        ng.status = .checkmate ∧ ng.result = some .white) ∧
      (E.outcome fa = .blackWon → E.method fa = .checkmate →
        ng.status = .checkmate ∧ ng.result = some .black) ∧
      (E.outcome fa = .drawn → E.method fa = .stalemate →
        ng.status = .stalemate) ∧
      (E.outcome fa = .drawn → E.method fa ≠ .stalemate →
        ng.status = .draw) ∧
      (E.outcome fa = .noOutcome →
        ng.status = .ongoing ∧ ng.result = none) := by
  obtain ⟨fa, hfa, _, _, _, hng, hrec⟩ := applyMove_ok h
  subst hng
  refine ⟨fa, hfa, rfl, rfl, rfl, rfl, rfl, rfl, rfl, rfl, rfl, rfl, hrec,
          ?_, ?_, ?_, ?_, ?_⟩
  · intro ho hm
    constructor <;> simp [successorGame, outcomeToStatus, ho, hm]
  · intro ho hm
    constructor <;> simp [successorGame, outcomeToStatus, ho, hm]
  · intro ho hm
    simp [successorGame, outcomeToStatus, ho, hm]
  · intro ho hm
    simp [successorGame, outcomeToStatus, ho, hm]
  · intro ho
    constructor <;> simp [successorGame, outcomeToStatus, ho]

/-- Witness for `applyMove_success_fields`: the trivial engine accepts
`e2e4` on a fresh game and the successor carries all derived fields. -/
theorem applyMove_success_fields_witness :
    wGame.applyMove testEngine "e2e4" 3 5 = .ok (wNg, wRec2) ∧
    ∃ fa, testEngine.moveStr wGame.fen "e2e4" = some fa ∧
      wNg.fen = fa ∧
      wNg.sideToMove = colorName (testEngine.whiteToMove fa) ∧
      wNg.plyCount = wGame.plyCount + 1 ∧
      wNg.stateVersion = wGame.stateVersion + 1 ∧
      wNg.id = wGame.id ∧
      wNg.createdAt = wGame.createdAt ∧
      wNg.updatedAt = 3 ∧
      wNg.lastMoveUCI = some "e2e4" ∧
      wNg.lastMoveAt = some 3 ∧
      (wNg.status, wNg.result)
        = outcomeToStatus (testEngine.outcome fa) (testEngine.method fa) ∧
      wRec2 = mkRecord 5 "e2e4" wGame.fen fa 3 ∧
      (testEngine.outcome fa = .whiteWon → testEngine.method fa = .checkmate →
        wNg.status = .checkmate ∧ wNg.result = some .white) ∧
      (testEngine.outcome fa = .blackWon → testEngine.method fa = .checkmate →
        wNg.status = .checkmate ∧ wNg.result = some .black) ∧
      (testEngine.outcome fa = .drawn → testEngine.method fa = .stalemate →
        wNg.status = .stalemate) ∧
      (testEngine.outcome fa = .drawn → testEngine.method fa ≠ .stalemate →
        wNg.status = .draw) ∧
      (testEngine.outcome fa = .noOutcome →
        wNg.status = .ongoing ∧ wNg.result = none) :=
  ⟨by decide,
   applyMove_success_fields testEngine wGame "e2e4" 3 5 wNg wRec2 (by decide)⟩

/-! ### Helper lemmas for the claim operations -/

theorem claimNextGame_ok_elim {s : MemStore} {c : Nat}
    {r : Game × List MoveHistoryItem} {s' : MemStore}
    (h : s.claimNextGame c = (.ok r, s')) :
    ∃ chosen, s.games.find? (memEligible s.assigned c) = some chosen ∧
      r.1.id = chosen.id ∧
      s'.assigned = (chosen.id, c) :: s.assigned ∧
      (s'.games = putGame s.games chosen.id { chosen with status := .ongoing } ∨
        s'.games = s.games) := by
  unfold MemStore.claimNextGame at h
  split at h
  · injection h with h1 h2; injection h1
  · rename_i chosen hfind
    split at h
    · injection h with h1 h2
      injection h1 with h1
      subst h2
      refine ⟨chosen, hfind, ?_, rfl, Or.inl rfl⟩
      rw [← h1]
    · injection h with h1 h2
      injection h1 with h1
      subst h2
      refine ⟨chosen, hfind, ?_, rfl, Or.inr rfl⟩
      rw [← h1]

theorem mem_claim_ok_of_eligible {s : MemStore} {c : Nat} (g : Game)
    (hg : g ∈ s.games) (he : memEligible s.assigned c g = true) :
    ∃ r s', s.claimNextGame c = (.ok r, s') := by
  have hsome : (s.games.find? (memEligible s.assigned c)).isSome := by
    rw [List.find?_isSome]
    exact ⟨g, hg, he⟩
  obtain ⟨chosen, hfind⟩ := Option.isSome_iff_exists.mp hsome
  cases hres : s.claimNextGame c with
  | mk res s1 =>
      cases res with
      | ok r => exact ⟨r, s1, rfl⟩
      | error e =>
          exfalso
          unfold MemStore.claimNextGame at hres
          rw [hfind] at hres
          dsimp only at hres
          split at hres
          · injection hres with h1 h2; injection h1
          · injection hres with h1 h2; injection h1

theorem selectOldest_go (l : List Game) (b : Game) :
    ∃ r, l.foldl (fun acc g =>
        match acc with
        | none => some g
        | some b' => if g.createdAt < b'.createdAt then some g else acc)
        (some b) = some r ∧
      (r = b ∨ r ∈ l) ∧ r.createdAt ≤ b.createdAt ∧
      ∀ x ∈ l, r.createdAt ≤ x.createdAt := by
  induction l generalizing b with
  | nil => exact ⟨b, rfl, Or.inl rfl, le_refl _, by simp⟩
  | cons x xs ih =>
      by_cases hx : x.createdAt < b.createdAt
      · obtain ⟨r, hr, hmem, hle, hall⟩ := ih x
        refine ⟨r, by simpa [hx] using hr, ?_,
                le_of_lt (lt_of_le_of_lt hle hx), ?_⟩
        · rcases hmem with h | h
          · exact Or.inr (by simp [h])
          · exact Or.inr (List.mem_cons_of_mem x h)
        · intro y hy
          rcases List.mem_cons.mp hy with h | h
          · subst h; exact hle
          · exact hall y h
      · obtain ⟨r, hr, hmem, hle, hall⟩ := ih b
        refine ⟨r, by simpa [hx] using hr, ?_, hle, ?_⟩
        · rcases hmem with h | h
          · exact Or.inl h
          · exact Or.inr (List.mem_cons_of_mem x h)
        · intro y hy
          rcases List.mem_cons.mp hy with h | h
          · subst h; exact le_trans hle (not_lt.mp hx)
          · exact hall y h

theorem selectOldest_mem_min {l : List Game} {r : Game}
    (h : selectOldest l = some r) :
    r ∈ l ∧ ∀ x ∈ l, r.createdAt ≤ x.createdAt := by
  cases l with
  | nil => simp [selectOldest] at h
  | cons x xs =>
      obtain ⟨r', hr', hmem, hle, hall⟩ := selectOldest_go xs x
      have hsel : selectOldest (x :: xs) = some r' := by
        unfold selectOldest
        simpa using hr'
      rw [h] at hsel
      injection hsel with hsel
      subst hsel
      constructor
      · rcases hmem with hh | hh
        · exact hh ▸ List.mem_cons_self x xs
        · exact List.mem_cons_of_mem x hh
      · intro y hy
        rcases List.mem_cons.mp hy with hh | hh
        · subst hh; exact hle
        · exact hall y hh

theorem selectOldest_isSome {l : List Game} (hne : l ≠ []) :
    ∃ r, selectOldest l = some r := by
  cases l with
  | nil => exact absurd rfl hne
  | cons x xs =>
      obtain ⟨r, hr, _, _, _⟩ := selectOldest_go xs x
      refine ⟨r, ?_⟩
      unfold selectOldest
      simpa using hr

theorem pgClaimNextGame_ok_elim {t : PgStore} {c : Nat} {now : Int}
    {r : Game × List MoveHistoryItem} {t' : PgStore}
    (h : t.claimNextGame c now = (.ok r, t')) :
    ∃ chosen,
      selectOldest (t.games.filter (pgEligible t.players c)) = some chosen ∧
      r.1.id = chosen.id ∧ t' = pgClaimCommit t chosen.id c now := by
  unfold PgStore.claimNextGame at h
  split at h
  · injection h with h1 h2; injection h1
  · rename_i chosen hsel
    split at h
    · injection h with h1 h2; injection h1
    · injection h with h1 h2
      injection h1 with h1
      refine ⟨chosen, hsel, ?_, h2.symm⟩
      rw [← h1]
      split <;> rfl

theorem pg_claim_ok_of_eligible {t : PgStore} {c : Nat} (now : Int) (g : Game)
    (hg : g ∈ t.games) (he : pgEligible t.players c g = true) :
    ∃ r t', t.claimNextGame c now = (.ok r, t') := by
  have hmem : g ∈ t.games.filter (pgEligible t.players c) :=
    List.mem_filter.mpr ⟨hg, he⟩
  have hnn := List.ne_nil_of_mem hmem
  obtain ⟨chosen, hsel⟩ := selectOldest_isSome hnn
  have hcmem := (selectOldest_mem_min hsel).1
  have hce : pgEligible t.players c chosen = true :=
    (List.mem_filter.mp hcmem).2
  have hnoc : (t.players.any
      (fun p => p.gameId == chosen.id && p.clientId == c)) = false := by
    unfold pgEligible at hce
    simp only [Bool.and_eq_true, Bool.not_eq_true'] at hce
    exact hce.2
  cases hres : t.claimNextGame c now with
  | mk res t1 =>
      cases res with
      | ok r => exact ⟨r, t1, rfl⟩
      | error e =>
          exfalso
          unfold PgStore.claimNextGame at hres
          rw [hsel] at hres
          dsimp only at hres
          rw [hnoc] at hres
          simp only [Bool.false_eq_true, if_false] at hres
          injection hres with h1 h2
          injection h1

theorem mem_putGame {games : List Game} {x : Game} (i : Nat) (ng : Game)
    (hx : x ∈ games) (hne : x.id ≠ i) : x ∈ putGame games i ng := by
  induction games with
  | nil => cases hx
  | cons y ys ih =>
      rcases List.mem_cons.mp hx with h | h
      · subst h
        have hb : (x.id == i) = false := by simpa using hne
        simp [putGame, hb]
      · simp only [putGame, List.mem_cons]
        exact Or.inr (ih h)

theorem contains_cons_false {as : List (Nat × Nat)} {x y : Nat × Nat}
    (h : as.contains x = false) (hne : x ≠ y) :
    (y :: as).contains x = false := by
  have hx : x ∉ as := by simpa using h
  have hxy : x ∉ y :: as := by
    intro hmem
    rcases List.mem_cons.mp hmem with hh | hh
    · exact hne hh
    · exact hx hh
  simpa using hxy

theorem memEligible_cons_of_ne {assigned : List (Nat × Nat)} {c i : Nat}
    {g : Game} (he : memEligible assigned c g = true) (hne : g.id ≠ i) :
    memEligible ((i, c) :: assigned) c g = true := by
  unfold memEligible at he ⊢
  simp only [Bool.and_eq_true, Bool.not_eq_true'] at he ⊢
  refine ⟨he.1, ?_⟩
  exact contains_cons_false he.2 (fun hh => hne (congrArg Prod.fst hh))

theorem pgEligible_commit_of_ne {t : PgStore} {c i : Nat} {now : Int}
    {g : Game} (he : pgEligible t.players c g = true) (hne : g.id ≠ i) :
    pgEligible (pgClaimCommit t i c now).players c g = true := by
  unfold pgEligible at he ⊢
  unfold pgClaimCommit
  simp only [Bool.and_eq_true, Bool.not_eq_true'] at he ⊢
  refine ⟨he.1, ?_⟩
  rw [List.any_append]
  simp only [he.2, List.any_cons, List.any_nil, Bool.or_false, Bool.false_or]
  have hb : (i == g.id) = false := by simpa using (Ne.symm hne)
  simp [hb]

/-- Two waiting games with distinct ids and creation times 5 and 1; the
game map's iteration order presents the newer one first. -/
def gNewC2 : Game := { mkInitialGame 1 5 with status := .waiting }

def gOldC2 : Game := { mkInitialGame 2 1 with status := .waiting }

def cexC2 : MemStore :=
  { games := [gNewC2, gOldC2], assigned := [], moved := [], history := []
    nextId := 10 }

def wPgTwo : PgStore :=
  { games := [gNewC2, gOldC2], players := [], moves := [], nextId := 10 }

/-- Counterexample to **C2** as stated: the in-memory `ClaimNextGame`
scans the game map in (arbitrary) iteration order and returns the first
eligible game — here the one created at time 5 — although an eligible
game created at time 1 exists, so the memory backend does not pick the
earliest-created eligible game; the ordering clause holds only for the
transactional backend. -/
theorem memory_claim_not_oldest :
    (cexC2.claimNextGame 9).1
      = .ok ({ gNewC2 with status := .ongoing }, []) ∧
    memEligible cexC2.assigned 9 gOldC2 = true ∧
    gOldC2.createdAt < gNewC2.createdAt ∧
    gOldC2.id ≠ gNewC2.id := by decide

/-- **C2** (amended): when at least one game is eligible for client `c`,
`ClaimNextGame` returns an eligible game in both backends; the
transactional backend moreover returns an eligible game of minimal
creation time (oldest first), while the in-memory backend returns the
first eligible game in map iteration order, which need not be the
oldest (see the counterexample). -/
theorem claim_returns_eligible_pg_oldest (s : MemStore) (t : PgStore)
    (c : Nat) (now : Int) :
    ((∃ g ∈ s.games, memEligible s.assigned c g = true) →
      ∃ r s', s.claimNextGame c = (.ok r, s') ∧
        ∃ g₀ ∈ s.games, memEligible s.assigned c g₀ = true ∧
          r.1.id = g₀.id) ∧
    ((∃ g ∈ t.games, pgEligible t.players c g = true) →
      ∃ r t', t.claimNextGame c now = (.ok r, t') ∧
        ∃ g₀ ∈ t.games, pgEligible t.players c g₀ = true ∧
          r.1.id = g₀.id ∧
          ∀ g' ∈ t.games, pgEligible t.players c g' = true →
            g₀.createdAt ≤ g'.createdAt) := by
  constructor
  · rintro ⟨g, hg, he⟩
    obtain ⟨r, s', hok⟩ := mem_claim_ok_of_eligible g hg he
    obtain ⟨chosen, hfind, hid, _, _⟩ := claimNextGame_ok_elim hok
    exact ⟨r, s', hok, chosen, List.mem_of_find?_eq_some hfind,
           List.find?_some hfind, hid⟩
  · rintro ⟨g, hg, he⟩
    obtain ⟨r, t', hok⟩ := pg_claim_ok_of_eligible now g hg he
    obtain ⟨chosen, hsel, hid, _⟩ := pgClaimNextGame_ok_elim hok
    obtain ⟨hcmem, hmin⟩ := selectOldest_mem_min hsel
    refine ⟨r, t', hok, chosen, (List.mem_filter.mp hcmem).1,
            (List.mem_filter.mp hcmem).2, hid, ?_⟩
    intro g' hg' he'
    exact hmin g' (List.mem_filter.mpr ⟨hg', he'⟩)

/-- Witness for `claim_returns_eligible_pg_oldest`: both backends on a
pool of two eligible games. -/
theorem claim_returns_eligible_pg_oldest_witness :
    (∃ r s', cexC2.claimNextGame 9 = (.ok r, s') ∧
      ∃ g₀ ∈ cexC2.games, memEligible cexC2.assigned 9 g₀ = true ∧
        r.1.id = g₀.id) ∧
    (∃ r t', wPgTwo.claimNextGame 9 0 = (.ok r, t') ∧
      ∃ g₀ ∈ wPgTwo.games, pgEligible wPgTwo.players 9 g₀ = true ∧
        r.1.id = g₀.id ∧
        ∀ g' ∈ wPgTwo.games, pgEligible wPgTwo.players 9 g' = true →
          g₀.createdAt ≤ g'.createdAt) :=
  ⟨(claim_returns_eligible_pg_oldest cexC2 wPgTwo 9 0).1
     ⟨gNewC2, by decide, by decide⟩,
   (claim_returns_eligible_pg_oldest cexC2 wPgTwo 9 0).2
     ⟨gOldC2, by decide, by decide⟩⟩

theorem mem_second_claim {s : MemStore} {c : Nat}
    {s₁ : MemStore} {chosen₁ : Game}
    (hass₁ : s₁.assigned = (chosen₁.id, c) :: s.assigned)
    (hgames₁ : s₁.games
        = putGame s.games chosen₁.id { chosen₁ with status := .ongoing } ∨
      s₁.games = s.games)
    (g : Game) (hg : g ∈ s.games) (he : memEligible s.assigned c g = true)
    (hgne : g.id ≠ chosen₁.id) :
    ∃ r₂ s₂, s₁.claimNextGame c = (.ok r₂, s₂) ∧ chosen₁.id ≠ r₂.1.id := by
  have hg₁ : g ∈ s₁.games := by
    rcases hgames₁ with hh | hh
    · rw [hh]; exact mem_putGame _ _ hg hgne
    · rw [hh]; exact hg
  have he₁ : memEligible s₁.assigned c g = true := by
    rw [hass₁]; exact memEligible_cons_of_ne he hgne
  obtain ⟨r₂, s₂, hok₂⟩ := mem_claim_ok_of_eligible g hg₁ he₁
  obtain ⟨chosen₂, hfind₂, hid₂, _, _⟩ := claimNextGame_ok_elim hok₂
  have he₂c := List.find?_some hfind₂
  have hcon : s₁.assigned.contains (chosen₂.id, c) = false := by
    unfold memEligible at he₂c
    simp only [Bool.and_eq_true, Bool.not_eq_true'] at he₂c
    exact he₂c.2
  rw [hass₁] at hcon
  have hnm : (chosen₂.id, c) ∉ (chosen₁.id, c) :: s.assigned := by
    simpa using hcon
  have hne12 : chosen₁.id ≠ chosen₂.id := by
    intro hh
    exact hnm (by rw [hh]; exact List.mem_cons_self _ _)
  exact ⟨r₂, s₂, hok₂, by rw [hid₂]; exact hne12⟩

theorem pg_second_claim {t : PgStore} {c : Nat} {now now' : Int}
    {t₁ : PgStore} {chosen₁ : Game}
    (ht₁ : t₁ = pgClaimCommit t chosen₁.id c now)
    (g : Game) (hg : g ∈ t.games) (he : pgEligible t.players c g = true)
    (hgne : g.id ≠ chosen₁.id) :
    ∃ r₂ t₂, t₁.claimNextGame c now' = (.ok r₂, t₂) ∧
      chosen₁.id ≠ r₂.1.id := by
  subst ht₁
  have hg₁ : g ∈ (pgClaimCommit t chosen₁.id c now).games := by
    unfold pgClaimCommit
    refine List.mem_map.mpr ⟨g, hg, ?_⟩
    have hb : (g.id == chosen₁.id) = false := by simpa using hgne
    simp [hb]
  have he₁ : pgEligible (pgClaimCommit t chosen₁.id c now).players c g
      = true := pgEligible_commit_of_ne he hgne
  obtain ⟨r₂, t₂, hok₂⟩ := pg_claim_ok_of_eligible now' g hg₁ he₁
  obtain ⟨chosen₂, hsel₂, hid₂, _⟩ := pgClaimNextGame_ok_elim hok₂
  have hcmem₂ := (selectOldest_mem_min hsel₂).1
  have he₂ := (List.mem_filter.mp hcmem₂).2
  have hany : ((pgClaimCommit t chosen₁.id c now).players.any
      (fun p => p.gameId == chosen₂.id && p.clientId == c)) = false := by
    unfold pgEligible at he₂
    simp only [Bool.and_eq_true, Bool.not_eq_true'] at he₂
    exact he₂.2
  unfold pgClaimCommit at hany
  rw [List.any_append] at hany
  simp only [List.any_cons, List.any_nil, Bool.or_false,
             Bool.or_eq_false_iff] at hany
  have hbor := hany.2
  have hne12 : chosen₁.id ≠ chosen₂.id := by
    intro hh
    simp [hh] at hbor
  exact ⟨r₂, t₂, hok₂, by rw [hid₂]; exact hne12⟩

/-- **C8**: a client is never offered a game it has already been
offered: in both backends a successful claim returns a game with no
existing assignment row for the client; and when two eligible games
with distinct ids exist, two consecutive claims by the same client both
succeed and return distinct game identifiers. -/
theorem claim_never_repeats (s : MemStore) (t : PgStore) (c : Nat)
    (now now' : Int) :
    (∀ r s', s.claimNextGame c = (.ok r, s') →
      s.assigned.contains (r.1.id, c) = false) ∧
    (∀ r t', t.claimNextGame c now = (.ok r, t') →
      t.players.any (fun p => p.gameId == r.1.id && p.clientId == c)
        = false) ∧
    (∀ g₁ g₂, g₁ ∈ s.games → g₂ ∈ s.games → g₁.id ≠ g₂.id →
      memEligible s.assigned c g₁ = true →
      memEligible s.assigned c g₂ = true →
      ∃ r₁ s₁ r₂ s₂, s.claimNextGame c = (.ok r₁, s₁) ∧
        s₁.claimNextGame c = (.ok r₂, s₂) ∧ r₁.1.id ≠ r₂.1.id) ∧
    (∀ g₁ g₂, g₁ ∈ t.games → g₂ ∈ t.games → g₁.id ≠ g₂.id →
      pgEligible t.players c g₁ = true →
      pgEligible t.players c g₂ = true →
      ∃ r₁ t₁ r₂ t₂, t.claimNextGame c now = (.ok r₁, t₁) ∧
        t₁.claimNextGame c now' = (.ok r₂, t₂) ∧ r₁.1.id ≠ r₂.1.id) := by
  refine ⟨?_, ?_, ?_, ?_⟩
  · intro r s' h
    obtain ⟨chosen, hfind, hid, _, _⟩ := claimNextGame_ok_elim h
    have he := List.find?_some hfind
    unfold memEligible at he
    simp only [Bool.and_eq_true, Bool.not_eq_true'] at he
    rw [hid]
    exact he.2
  · intro r t' h
    obtain ⟨chosen, hsel, hid, _⟩ := pgClaimNextGame_ok_elim h
    have hcmem := (selectOldest_mem_min hsel).1
    have he := (List.mem_filter.mp hcmem).2
    unfold pgEligible at he
    simp only [Bool.and_eq_true, Bool.not_eq_true'] at he
    rw [hid]
    exact he.2
  · intro g₁ g₂ hg₁ hg₂ hne he₁ he₂
    obtain ⟨r₁, s₁, hok₁⟩ := mem_claim_ok_of_eligible g₁ hg₁ he₁
    obtain ⟨chosen₁, hfind₁, hid₁, hass₁, hgames₁⟩ := claimNextGame_ok_elim hok₁
    by_cases hcase : g₁.id = chosen₁.id
    · have hgne : g₂.id ≠ chosen₁.id := fun hh => hne (hcase.trans hh.symm)
      obtain ⟨r₂, s₂, hok₂, hneid⟩ :=
        mem_second_claim hass₁ hgames₁ g₂ hg₂ he₂ hgne
      exact ⟨r₁, s₁, r₂, s₂, hok₁, hok₂, by rw [hid₁]; exact hneid⟩
    · obtain ⟨r₂, s₂, hok₂, hneid⟩ :=
        mem_second_claim hass₁ hgames₁ g₁ hg₁ he₁ hcase
      exact ⟨r₁, s₁, r₂, s₂, hok₁, hok₂, by rw [hid₁]; exact hneid⟩
  · intro g₁ g₂ hg₁ hg₂ hne he₁ he₂
    obtain ⟨r₁, t₁, hok₁⟩ := pg_claim_ok_of_eligible now g₁ hg₁ he₁
    obtain ⟨chosen₁, hsel₁, hid₁, ht₁⟩ := pgClaimNextGame_ok_elim hok₁
    by_cases hcase : g₁.id = chosen₁.id
    · have hgne : g₂.id ≠ chosen₁.id := fun hh => hne (hcase.trans hh.symm)
      obtain ⟨r₂, t₂, hok₂, hneid⟩ :=
        pg_second_claim ht₁ g₂ hg₂ he₂ hgne
      exact ⟨r₁, t₁, r₂, t₂, hok₁, hok₂, by rw [hid₁]; exact hneid⟩
    · obtain ⟨r₂, t₂, hok₂, hneid⟩ :=
        pg_second_claim ht₁ g₁ hg₁ he₁ hcase
      exact ⟨r₁, t₁, r₂, t₂, hok₁, hok₂, by rw [hid₁]; exact hneid⟩

/-- Witness for `claim_never_repeats`: two consecutive claims by the
same client on a two-game pool, in both backends. -/
theorem claim_never_repeats_witness :
    (∃ r₁ s₁ r₂ s₂, cexC2.claimNextGame 9 = (.ok r₁, s₁) ∧
      s₁.claimNextGame 9 = (.ok r₂, s₂) ∧ r₁.1.id ≠ r₂.1.id) ∧
    (∃ r₁ t₁ r₂ t₂, wPgTwo.claimNextGame 9 0 = (.ok r₁, t₁) ∧
      t₁.claimNextGame 9 0 = (.ok r₂, t₂) ∧ r₁.1.id ≠ r₂.1.id) :=
  ⟨(claim_never_repeats cexC2 wPgTwo 9 0 0).2.2.1 gNewC2 gOldC2
     (by decide) (by decide) (by decide) (by decide) (by decide),
   (claim_never_repeats cexC2 wPgTwo 9 0 0).2.2.2 gNewC2 gOldC2
     (by decide) (by decide) (by decide) (by decide) (by decide)⟩

/-- The §3 data-model invariant for game `gid` in store `s` after `n`
accepted moves: the stored game exists, its `state_version` and
`ply_count` equal `n`, the history has `n` items carrying ply indices
`0…n-1` in order, and replaying the history from the initial position
chains position-before to position-after and ends at the stored
position. -/
def replayInv (s : MemStore) (gid : Nat) (n : Nat) : Prop :=
  ∃ g, findGame s.games gid = some g ∧
    g.stateVersion = (n : Int) ∧
    g.plyCount = (n : Int) ∧
    (histOf s.history gid).length = n ∧
    chainOk initialFEN (histOf s.history gid) g.fen = true ∧
    plysFrom 0 (histOf s.history gid) = true

/-- **C3**: for every game created from the initial position
(`state_version` 0, empty history) and every sequence of `n`
successfully accepted moves, the game's `state_version` equals `n` and
its position equals the replay of the recorded history from the initial
position: items ordered by ply `0…n-1`, each item's position-before
equal to the previous item's position-after, and the stored position
equal to the last item's position-after. -/
theorem accepted_moves_replay {E : ChessEngine} {gid : Nat} {s : MemStore}
    {n : Nat} (h : Reaches E gid s n) : replayInv s gid n := by
  induction h with
  | base s g hg hv hp hf hh =>
      refine ⟨g, hg, by simp [hv], by simp [hp], by simp [hh], ?_, ?_⟩
      · rw [hh, hf]
        simp [chainOk]
      · rw [hh]
        simp [plysFrom]
  | stepSame s s' n clientID uci ev now recId r hreach hsub ih =>
      obtain ⟨g, hg, hv, hp, hlen, hchain, hplys⟩ := ih
      obtain ⟨g', ng, rec, hg', hver, happ, hpersist, _, _⟩ := submitMove_ok hsub
      rw [hg] at hg'
      injection hg' with hg'
      subst hg'
      obtain ⟨fa, hfa, _, _, _, hng, hrec⟩ := applyMove_ok happ
      subst hng
      subst hrec
      obtain ⟨_, _, _, _, hs'⟩ := persistMove_ok hpersist
      subst hs'
      have hid : g.id = gid := findGame_id hg
      have hitem :
          histOf
            (putHist s.history gid
              (histOf s.history gid ++
                [mkItem clientID (mkRecord recId uci g.fen fa now)
                  ((successorGame E g uci now fa).plyCount - 1)])) gid
          = histOf s.history gid ++
              [mkItem clientID (mkRecord recId uci g.fen fa now)
                ((successorGame E g uci now fa).plyCount - 1)] :=
        histOf_put_self s.history gid _
      refine ⟨successorGame E g uci now fa, ?_, ?_, ?_, ?_, ?_, ?_⟩
      · exact findGame_put_self _ hid hg
      · show g.stateVersion + 1 = ((n + 1 : Nat) : Int)
        rw [hv]
        push_cast
        ring
      · show g.plyCount + 1 = ((n + 1 : Nat) : Int)
        rw [hp]
        push_cast
        ring
      · show (histOf _ gid).length = n + 1
        rw [hitem]
        simp [hlen]
      · show chainOk initialFEN (histOf _ gid) (successorGame E g uci now fa).fen
            = true
        rw [hitem]
        exact chainOk_append _ hchain rfl rfl
      · show plysFrom 0 (histOf _ gid) = true
        rw [hitem]
        refine plysFrom_append _ hplys ?_
        show (successorGame E g uci now fa).plyCount - 1
            = 0 + ((histOf s.history gid).length : Int)
        rw [hlen]
        show g.plyCount + 1 - 1 = 0 + (n : Int)
        rw [hp]
        ring
  | stepOther s s' n gameID clientID uci ev now recId r hreach hne hsub ih =>
      obtain ⟨g, hg, hv, hp, hlen, hchain, hplys⟩ := ih
      obtain ⟨g', ng, rec, hg', hver, happ, hpersist, _, _⟩ := submitMove_ok hsub
      obtain ⟨fa, hfa, _, _, _, hng, hrec⟩ := applyMove_ok happ
      obtain ⟨_, _, _, _, hs'⟩ := persistMove_ok hpersist
      subst hs'
      have hidng : ng.id = gameID := by
        rw [hng]
        simpa [successorGame] using findGame_id hg'
      have hfind : findGame (putGame s.games gameID ng) gid
          = findGame s.games gid := findGame_put_other ng hne hidng
      have hhist :
          histOf (putHist s.history gameID
              (histOf s.history gameID ++ [mkItem clientID rec
                (ng.plyCount - 1)])) gid
            = histOf s.history gid :=
        histOf_put_other s.history _ hne
      exact ⟨g, by rw [hfind]; exact hg, hv, hp,
             by rw [hhist]; exact hlen,
             by rw [hhist]; exact hchain,
             by rw [hhist]; exact hplys⟩

/-- Witness for `accepted_moves_replay`: the invariant holds for the
fresh fixture game at `n = 0` and, after one accepted `e2e4`
submission, at `n = 1`. -/
theorem accepted_moves_replay_witness :
    replayInv wStore 1 0 ∧ replayInv wS2 1 1 :=
  ⟨accepted_moves_replay (E := testEngine)
     (Reaches.base wStore wGame (by decide) (by decide) (by decide)
       (by decide) (by decide)),
   accepted_moves_replay (E := testEngine)
     (Reaches.stepSame wStore wS2 0 7 "e2e4" 0 3 5 wR
       (Reaches.base wStore wGame (by decide) (by decide) (by decide)
         (by decide) (by decide))
       (by decide))⟩

end RandomChess
